import Mathlib

/-!
Verification development for the pygoogledocs markup compiler
(`pygoogledocs/markdown.py` and the answer-sheet generator in
`pygoogledocs/document.py`).

Texts are modelled as `List Char` (Python `str`), document offsets as `Nat`.
The third-party markdown→HTML→DOM pipeline (python-markdown + BeautifulSoup)
is not part of this repository; the AST compiler is therefore embedded as a
function over the parsed DOM (`Node`), which is exactly the data it consumes
in the source after the two library calls at the top of
`convert_to_doc_requests`.
-/

namespace PyGoogleDocs

abbrev Str := List Char

/-- Python `str` whitespace (the characters stripped by `str.strip()` and
matched by the regex class `\s` for ASCII inputs). -/
def isPySpace (c : Char) : Bool :=
  c = ' ' || c = '\t' || c = '\n' || c = '\r' || c = '\x0b' || c = '\x0c'

/-- Python `str.strip()`. -/
def pyStrip (s : Str) : Str :=
  ((s.dropWhile isPySpace).reverse.dropWhile isPySpace).reverse

/-- Python `str.rstrip()`. -/
def pyRstrip (s : Str) : Str :=
  (s.reverse.dropWhile isPySpace).reverse

/-- Python `haystack.find(needle)`: index of the first occurrence, `none`
for Python's `-1`. -/
def findSub (hay needle : Str) : Option Nat :=
  if needle.isPrefixOf hay then some 0
  else
    match hay with
    | [] => none
    | _ :: t => (findSub t needle).map (· + 1)

/-- Python `sep.join(parts)`. -/
def joinSep (sep : Str) : List Str → Str
  | [] => []
  | [p] => p
  | p :: ps => p ++ sep ++ joinSep sep ps

/-!
## Regex machinery

The source module compiles four inline patterns with Python `re` (no DOTALL,
so `.` never matches a newline; `finditer` returns non-overlapping matches,
leftmost first, and a lazy `.*?` takes the shortest content):

  bold_pattern   = \*\*(.*?)\*\*
  italic_pattern = \*(.*?)\*
  code_pattern   = `(.*?)`
  link_pattern   = \[(.*?)\](\((.*?)\))   (written \[(.*?)\]\((.*?)\))
-/

/-- Lazy scan for a closing delimiter: the least `j` such that `delim` is a
prefix of `s.drop j` and no newline occurs among the first `j` characters
(the lazy `.*?` content, whose `.` cannot match `\n`). -/
def closeScan (delim : Str) : Str → Option Nat
  | [] => if delim.isPrefixOf ([] : Str) then some 0 else none
  | c :: rest =>
    if delim.isPrefixOf (c :: rest) then some 0
    else if c = '\n' then none
    else (closeScan delim rest).map (· + 1)

/-- Length of the `\*\*(.*?)\*\*` match starting at the head of `s`, if any. -/
def attemptBold : Str → Option Nat
  | '*' :: '*' :: t => (closeScan ['*', '*'] t).map (· + 4)
  | _ => none

/-- Length of the `\*(.*?)\*` match starting at the head of `s`, if any. -/
def attemptItalic : Str → Option Nat
  | '*' :: t => (closeScan ['*'] t).map (· + 2)
  | _ => none

/-- Length of the `` `(.*?)` `` match starting at the head of `s`, if any. -/
def attemptCode : Str → Option Nat
  | '`' :: t => (closeScan ['`'] t).map (· + 2)
  | _ => none

/-- The `\[(.*?)\]\((.*?)\)` match starting at the head of `s`:
`(length, group1, group2)`. The engine backtracks the first lazy group past
any `]` not followed by `(`, so group1 ends at the least `j` with `](` at
`j`; group2 ends at the next `)`. -/
def attemptLink : Str → Option (Nat × Str × Str)
  | '[' :: t =>
    match closeScan [']', '('] t with
    | none => none
    | some j =>
      let rest2 := t.drop (j + 2)
      match closeScan [')'] rest2 with
      | none => none
      | some k => some (j + k + 4, t.take j, rest2.take k)
  | _ => none

/-- `finditer` driver: try a match at every position, left to right, skipping
over each match found (non-overlapping). Every scan step consumes at least
one character, so running it with `fuel = s.length` (as the wrappers below
do) never exhausts the fuel; the fuel only makes the recursion structural. -/
def scanAuxF (attempt : Str → Option Nat) :
    Nat → Str → Nat → List (Nat × Nat)
  | 0, _, _ => []
  | _ + 1, [], _ => []
  | fuel + 1, c :: rest, i =>
    match attempt (c :: rest) with
    | some len =>
      (i, i + len) :: scanAuxF attempt fuel (rest.drop (len - 1)) (i + len)
    | none => scanAuxF attempt fuel rest (i + 1)

/-- `finditer` driver for the link pattern, keeping both groups:
entries are `(start, end, textPart, urlPart)`. -/
def scanLinksF : Nat → Str → Nat → List (Nat × Nat × Str × Str)
  | 0, _, _ => []
  | _ + 1, [], _ => []
  | fuel + 1, c :: rest, i =>
    match attemptLink (c :: rest) with
    | some (len, tp, up) =>
      (i, i + len, tp, up) :: scanLinksF fuel (rest.drop (len - 1)) (i + len)
    | none => scanLinksF fuel rest (i + 1)

/-- `self.bold_pattern.finditer(text)` as `(start, end)` pairs. -/
def boldMatches (text : Str) : List (Nat × Nat) :=
  scanAuxF attemptBold text.length text 0

/-- `self.italic_pattern.finditer(text)` as `(start, end)` pairs. -/
def italicMatches (text : Str) : List (Nat × Nat) :=
  scanAuxF attemptItalic text.length text 0

/-- `self.code_pattern.finditer(text)` as `(start, end)` pairs. -/
def codeMatches (text : Str) : List (Nat × Nat) :=
  scanAuxF attemptCode text.length text 0

/-- `self.link_pattern.finditer(text)` as `(start, end, group1, group2)`. -/
def linkMatches (text : Str) : List (Nat × Nat × Str × Str) :=
  scanLinksF text.length text 0

/-!
## `_remove_markdown_syntax`: the seven `re.sub` passes
-/

/-- `re.sub(pat, group1, text)` for a symmetric-delimiter pattern: each match
of length `len` is replaced by its content `(match.take len).drop lcut` of
length `len - lcut - rcut`; scanning resumes after the match. (Fueled like
`scanAuxF`; callers pass the text's length.) -/
def subPairF (attempt : Str → Option Nat) (lcut rcut : Nat) :
    Nat → Str → Str
  | 0, _ => []
  | _ + 1, [] => []
  | fuel + 1, c :: rest =>
    match attempt (c :: rest) with
    | some len =>
      (((c :: rest).take len).drop lcut).take (len - lcut - rcut)
        ++ subPairF attempt lcut rcut fuel (rest.drop (len - 1))
    | none => c :: subPairF attempt lcut rcut fuel rest

/-- `re.sub(pair_pattern, group1, text)` with adequate fuel. -/
def subPair (attempt : Str → Option Nat) (lcut rcut : Nat) (s : Str) : Str :=
  subPairF attempt lcut rcut s.length s

/-- `re.sub(link_pattern, group1, text)`: each link collapses to its display
text. (Fueled.) -/
def subLinkF : Nat → Str → Str
  | 0, _ => []
  | _ + 1, [] => []
  | fuel + 1, c :: rest =>
    match attemptLink (c :: rest) with
    | some (len, tp, _) => tp ++ subLinkF fuel (rest.drop (len - 1))
    | none => c :: subLinkF fuel rest

def subLink (s : Str) : Str := subLinkF s.length s

/-- `re.sub(pat, '', text, flags=re.MULTILINE)` for a `^`-anchored pattern:
a match is attempted only at line starts (string start, or just after a
`'\n'`, including a `'\n'` consumed by a previous match). (Fueled.) -/
def subLineAnchoredF (attempt : Str → Option Nat) :
    Nat → Str → Bool → Str
  | 0, _, _ => []
  | _ + 1, [], _ => []
  | fuel + 1, c :: rest, atStart =>
    if atStart then
      match attempt (c :: rest) with
      | some len =>
        subLineAnchoredF attempt fuel (rest.drop (len - 1))
          (((c :: rest).take len).getLastD ' ' == '\n')
      | none => c :: subLineAnchoredF attempt fuel rest (c == '\n')
    else c :: subLineAnchoredF attempt fuel rest (c == '\n')

def subLineAnchored (attempt : Str → Option Nat) (s : Str) (atStart : Bool) :
    Str :=
  subLineAnchoredF attempt s.length s atStart

/-- Match of `#{1,6}\s+` at the head of `s` (greedy on both parts; seven or
more hashes means the required whitespace never follows ≤ 6 of them, so no
match). -/
def attemptHeader (s : Str) : Option Nat :=
  let h := (s.takeWhile (· = '#')).length
  if 1 ≤ h ∧ h ≤ 6 then
    let ws := ((s.drop h).takeWhile isPySpace).length
    if 1 ≤ ws then some (h + ws) else none
  else none

/-- Match of `\s*\d+\.\s+` at the head of `s` (all parts greedy; whitespace,
digits and the literal dot are pairwise disjoint so greedy matching never
backtracks). -/
def attemptOrdered (s : Str) : Option Nat :=
  let ws := (s.takeWhile isPySpace).length
  let d := ((s.drop ws).takeWhile (·.isDigit)).length
  if 1 ≤ d then
    match s.drop (ws + d) with
    | '.' :: t =>
      let ws2 := (t.takeWhile isPySpace).length
      if 1 ≤ ws2 then some (ws + d + 1 + ws2) else none
    | _ => none
  else none

/-- Match of `\s*[\*\-\+]\s+` at the head of `s`. -/
def attemptUnordered (s : Str) : Option Nat :=
  let ws := (s.takeWhile isPySpace).length
  match s.drop ws with
  | c :: t =>
    if c = '*' ∨ c = '-' ∨ c = '+' then
      let ws2 := (t.takeWhile isPySpace).length
      if 1 ≤ ws2 then some (ws + 1 + ws2) else none
    else none
  | [] => none

/-- `_remove_markdown_syntax(text)`: strips header markers, bold, italic and
code delimiters, reduces links to their display text, and strips ordered and
unordered list markers — in exactly that order of `re.sub` passes. -/
def removeMarkdownMarkers (text : Str) : Str :=
  let t1 := subLineAnchored attemptHeader text true
  let t2 := subPair attemptBold 2 2 t1
  let t3 := subPair attemptItalic 1 1 t2
  let t4 := subPair attemptCode 1 1 t3
  let t5 := subLink t4
  let t6 := subLineAnchored attemptOrdered t5 true
  subLineAnchored attemptUnordered t6 true

/-!
## Styles, requests, and the legacy span pipeline
-/

/-- A Google Docs `textStyle` payload as this module builds it. `code` stands
for the pair `weightedFontFamily = Courier New` plus the light-gray
`backgroundColor` the source always sets together; `link` carries the URL.
The accompanying `fields` mask always lists exactly the keys set here, so it
is not modelled separately. -/
structure TextStyle where
  bold : Bool := false
  italic : Bool := false
  code : Bool := false
  link : Option Str := none
  deriving DecidableEq, Repr

def boldStyle : TextStyle := { bold := true }

def italicStyle : TextStyle := { italic := true }

def codeStyle : TextStyle := { code := true }

def linkStyle (url : Str) : TextStyle := { link := some url }

/-- The four request shapes this module emits. -/
inductive Request where
  | insertText (index : Nat) (text : Str)
  | updateTextStyle (startIndex endIndex : Nat) (style : TextStyle)
  | updateParagraphStyle (startIndex endIndex : Nat) (namedStyleType : Str)
  | createParagraphBullets (startIndex endIndex : Nat) (bulletPreset : Str)
  deriving DecidableEq, Repr

/-- The containment test `_identify_all_spans` (and
`_count_preceding_syntax_chars`) uses to suppress an italic match lying
inside some bold match: `bold.start() <= m.start() and bold.end() >= m.end()`. -/
def insideAnyBold (bolds : List (Nat × Nat)) (m : Nat × Nat) : Bool :=
  bolds.any fun b => b.1 ≤ m.1 && m.2 ≤ b.2

/-- Insert an element into a list sorted by `lt`, after every element
strictly smaller and before the first element not smaller — the placement a
stable ascending sort needs. -/
def insertStable (lt : α → α → Bool) (a : α) : List α → List α
  | [] => [a]
  | b :: bs => if lt b a then b :: insertStable lt a bs else a :: b :: bs

/-- Stable ascending sort (Python `list.sort` semantics: equal keys keep
their original relative order). -/
def sortStable (lt : α → α → Bool) : List α → List α
  | [] => []
  | a :: as => insertStable lt a (sortStable lt as)

/-- `_identify_all_spans(text)`: bold spans (delimiters excluded), italic
spans not inside a bold match, code spans, link spans (full source range,
style carrying the URL), stably sorted by start offset
(`spans.sort(key=lambda x: x[0])`). -/
def identifyAllSpans (text : Str) : List (Nat × Nat × TextStyle) :=
  let bolds := boldMatches text
  let spans :=
    bolds.map (fun m => (m.1 + 2, m.2 - 2, boldStyle))
      ++ ((italicMatches text).filter (fun m => !insideAnyBold bolds m)).map
          (fun m => (m.1 + 1, m.2 - 1, italicStyle))
      ++ (codeMatches text).map (fun m => (m.1 + 1, m.2 - 1, codeStyle))
      ++ (linkMatches text).map (fun m => (m.1, m.2.1, linkStyle m.2.2.2))
  sortStable (fun a b => Nat.blt a.1 b.1) spans

/-- Contribution of one bold match to `_count_preceding_syntax_chars`:
2 when the position sits inside the match (opening `**` only), 4 when the
whole match precedes it. -/
def boldContribution (position : Nat) (m : Nat × Nat) : Nat :=
  if m.1 < position then (if position < m.2 then 2 else 4) else 0

/-- Contribution of one (non-bold-nested) italic match: 1 inside, 2 after. -/
def italicContribution (position : Nat) (m : Nat × Nat) : Nat :=
  if m.1 < position then (if position < m.2 then 1 else 2) else 0

/-- Contribution of one code match: 1 inside, 2 after. -/
def codeContribution (position : Nat) (m : Nat × Nat) : Nat :=
  if m.1 < position then (if position < m.2 then 1 else 2) else 0

/-- Contribution of one link match `(s, e, textPart, urlPart)`: the full
`4 + len(url)` once past the match; inside it, 1 while within the display
text, otherwise 3 plus however much of the URL the position has passed. -/
def linkContribution (position : Nat) (m : Nat × Nat × Str × Str) : Nat :=
  let s := m.1
  let tp := m.2.2.1
  let up := m.2.2.2
  if s < position then
    if position < m.2.1 then
      if s + 1 + tp.length + 1 < position then
        3 + (let passed := position - (s + 1 + tp.length + 2)
             if 0 < passed then min passed up.length else 0)
      else 1
    else 4 + up.length
  else 0

/-- `_count_preceding_syntax_chars(text, position)`: sums the contributions
of every bold, non-bold-nested italic, code, and link match whose start
precedes `position`. (Header hashes and list markers are not examined.) -/
def countPrecedingSyntaxChars (text : Str) (position : Nat) : Nat :=
  let bolds := boldMatches text
  ((bolds.map (boldContribution position)).sum)
    + (((italicMatches text).filter (fun m => !insideAnyBold bolds m)).map
        (italicContribution position)).sum
    + ((codeMatches text).map (codeContribution position)).sum
    + ((linkMatches text).map (linkContribution position)).sum

/-!
`create_text_insertion_requests(text, index)` inserts the syntax-stripped
text (a single space if it strips to nothing), then emits link style requests
for links whose display text is found in the cleaned text, then style
requests for the other spans whose raw offsets survive translation through
`_count_preceding_syntax_chars` and the validity guard. It returns the
request list and the new index. (Every span style carries at least one
field, so the source's empty-`fields` skip never fires.) Its two per-span
loop bodies are named here so the theorems can speak about them.
-/

/-- The cleaned text `create_text_insertion_requests` inserts: the
syntax-stripped input, or a single space when that strips to nothing
("Avoid empty text"). -/
def cleanedTextOf (text : Str) : Str :=
  let cleaned := removeMarkdownMarkers text
  if pyStrip cleaned = [] then [' '] else cleaned

/-- The request the link loop of `create_text_insertion_requests` emits for
one link match, `none` when the display text is not found in the cleaned
text (`text_in_cleaned >= 0` fails): the span is silently dropped. -/
def linkRequestOf (cleaned : Str) (index : Nat) (m : Nat × Nat × Str × Str) :
    Option Request :=
  match findSub cleaned m.2.2.1 with
  | none => none
  | some pos =>
    some (Request.updateTextStyle (index + pos) (index + pos + m.2.2.1.length)
      (linkStyle m.2.2.2))

/-- The request the span loop of `create_text_insertion_requests` emits for
one identified span, `none` for link spans (already handled) and for spans
whose offsets, translated by `_count_preceding_syntax_chars`, fail the
validity guard: such spans are silently dropped. -/
def spanRequestOf (text cleaned : Str) (index : Nat)
    (sp : Nat × Nat × TextStyle) : Option Request :=
  if (sp.2.2.link).isSome then none
  else
    let cleanStart : Int :=
      (sp.1 : Int) - countPrecedingSyntaxChars text sp.1
    let cleanEnd : Int :=
      (sp.2.1 : Int) - countPrecedingSyntaxChars text sp.2.1
    if cleanEnd ≤ cleanStart ∨ cleanStart < 0 ∨ (cleaned.length : Int) < cleanEnd
    then none
    else some (Request.updateTextStyle (index + cleanStart.toNat)
      (index + cleanEnd.toNat) sp.2.2)

def create_text_insertion_requests (text : Str) (index : Nat) :
    List Request × Nat :=
  let cleaned := cleanedTextOf text
  let linkReqs := (linkMatches text).filterMap (linkRequestOf cleaned index)
  let spanReqs :=
    (identifyAllSpans text).filterMap (spanRequestOf text cleaned index)
  (Request.insertText index cleaned :: (linkReqs ++ spanReqs),
    index + cleaned.length)

/-!
## The AST compiler (`convert_to_doc_requests` and its block processors)

A `Node` is a BeautifulSoup DOM node: a `NavigableString` or a tag with a
name, an optional `href` attribute, and children. `convert_to_doc_requests`
obtains this DOM from the third-party python-markdown + BeautifulSoup calls;
the embedding takes the DOM (the parser's output) as input.
-/

inductive Node where
  | text (s : Str)
  | elem (name : String) (href : Option Str) (children : List Node)

mutual

/-- BeautifulSoup `get_text()`: concatenation of every descendant string. -/
def getText : Node → Str
  | .text s => s
  | .elem _ _ cs => getTextL cs

def getTextL : List Node → Str
  | [] => []
  | n :: ns => getText n ++ getTextL ns

end

mutual

/-- BeautifulSoup `descendants`: every node strictly below this one, in
document order. -/
def descendants : Node → List Node
  | .text _ => []
  | .elem _ _ cs => descendantsL cs

def descendantsL : List Node → List Node
  | [] => []
  | n :: ns => n :: descendants n ++ descendantsL ns

end

/-- The inline tag names `_generate_inline_format_requests` reacts to. -/
def inlineTagNames : List String := ["strong", "b", "em", "i", "code", "a"]

/-- The style dict built for one inline tag (`bold` for strong/b, `italic`
for em/i, the Courier/background pair for code, the href for a). -/
def mkInlineStyle (name : String) (href : Option Str) : TextStyle :=
  { bold := name == "strong" || name == "b"
  , italic := name == "em" || name == "i"
  , code := name == "code"
  , link := if name == "a" then href else none }

/-- `_generate_inline_format_requests(parent_tag, insertion_offset)`: walk the
descendants; for each inline tag with non-empty text, locate that text in the
parent's `get_text()` by first-occurrence search and emit one
`updateTextStyle` over the found range shifted by the insertion offset.
Unlocatable snippets are skipped silently. -/
def generateInlineFormatRequests (parentTag : Node) (insertionOffset : Nat) :
    List Request :=
  let parentText := getText parentTag
  (descendants parentTag).filterMap fun el =>
    match el with
    | .text _ => none
    | .elem name href cs =>
      if name ∈ inlineTagNames then
        let snippet := getTextL cs
        if snippet = [] then none
        else
          match findSub parentText snippet with
          | none => none
          | some s =>
            some (Request.updateTextStyle (insertionOffset + s)
              (insertionOffset + s + snippet.length) (mkInlineStyle name href))
      else none

/-- `_process_paragraph(block, insertion_index)`: insert the block's plain
text (a lone newline when it strips to nothing, otherwise with a newline
appended), then the inline style requests offset by the block's start. -/
def processParagraph (block : Node) (insertionIndex : Nat) :
    List Request × Nat :=
  let t := getText block
  let paragraphText := if pyStrip t = [] then ['\n'] else t ++ ['\n']
  let newInsertionIndex := insertionIndex + paragraphText.length
  (Request.insertText insertionIndex paragraphText
      :: generateInlineFormatRequests block insertionIndex,
    newInsertionIndex)

/-- `int(block.name[-1])` followed by the clamp `if level < 1 or level > 6:
level = 1`. (`convert_to_doc_requests` only routes `h1`–`h6` here, so the
digit conversion never fails in context.) -/
def headingLevel (name : String) : Nat :=
  let d := (name.data.getLastD '0').toNat - '0'.toNat
  if d < 1 ∨ 6 < d then 1 else d

/-- `_process_heading(block, insertion_index)`: insert the heading text with
a trailing newline, emit `updateParagraphStyle HEADING_<level>` over it,
then the inline style requests. -/
def processHeading (block : Node) (insertionIndex : Nat) :
    List Request × Nat :=
  let headingText := getText block ++ ['\n']
  let endOffset := insertionIndex + headingText.length
  let level := match block with
    | .elem name _ _ => headingLevel name
    | .text _ => headingLevel ""
  (Request.insertText insertionIndex headingText
      :: Request.updateParagraphStyle insertionIndex endOffset
          ("HEADING_" ++ toString level).data
      :: generateInlineFormatRequests block insertionIndex,
    endOffset)

/-- Direct children of a tag bearing a given name
(`find_all(name, recursive=False)`). -/
def childrenNamed (block : Node) (tag : String) : List Node :=
  match block with
  | .text _ => []
  | .elem _ _ cs => cs.filter fun c =>
      match c with
      | .elem n _ _ => n == tag
      | .text _ => false

/-- The text inserted for one `<li>`: its direct `<p>` children joined with
blank lines (an all-whitespace paragraph contributing a lone newline),
right-stripped, plus a newline; an `<li>` without `<p>` children falls back
to its own `get_text()`, right-stripped, plus a newline. -/
def liText (listItem : Node) : Str :=
  let paragraphs := childrenNamed listItem "p"
  if paragraphs.isEmpty then
    pyRstrip (getText listItem) ++ ['\n']
  else
    let combinedContent := paragraphs.map fun p =>
      let txt := getText p
      if pyStrip txt = [] then ['\n'] else txt
    pyRstrip (joinSep ['\n', '\n'] combinedContent) ++ ['\n']

/-- The item loop of `_process_list`. State mirrors the source: the running
insertion index and the `list_item_start_index` / `list_item_end_index`
pair (which start as `None`). Note the source passes
`list_item_start_index` — the FIRST item's start — as the offset for every
item's inline style requests. -/
def processListGo (items : List Node) (insertionIndex : Nat)
    (listItemStart : Option Nat) :
    List Request × Nat × Option Nat × Option Nat :=
  match items with
  | [] => ([], insertionIndex, listItemStart, none)
  | listItem :: rest =>
    let t := liText listItem
    let start := listItemStart.getD insertionIndex
    let afterInsert := insertionIndex + t.length
    let inline := generateInlineFormatRequests listItem start
    let (restOps, finalIdx, finalStart, restEnd) :=
      processListGo rest afterInsert (some start)
    (Request.insertText insertionIndex t :: inline ++ restOps,
      finalIdx, finalStart, some (restEnd.getD afterInsert))

/-- `'BULLET_DISC_CIRCLE_SQUARE' if not ordered else
'NUMBERED_DECIMAL_ALPHA_ROMAN'`. -/
def bulletPresetOf (ordered : Bool) : Str :=
  if !ordered then "BULLET_DISC_CIRCLE_SQUARE".data
  else "NUMBERED_DECIMAL_ALPHA_ROMAN".data

/-- `_process_list(block, insertion_index, ordered)`: insert every top-level
`<li>` in turn, then append exactly one `createParagraphBullets` over
`[first_item_start, last_item_end)` — disc/circle/square for unordered
lists, decimal/alpha/roman for ordered ones. -/
def processList (block : Node) (insertionIndex : Nat) (ordered : Bool) :
    List Request × Nat :=
  let listItems := childrenNamed block "li"
  let (ops, finalIdx, start?, end?) :=
    processListGo listItems insertionIndex none
  match start?, end? with
  | some s, some e =>
    (ops ++ [Request.createParagraphBullets s e (bulletPresetOf ordered)],
      finalIdx)
  | _, _ => (ops, finalIdx)

/-- Whether a tag name is one of `h1`–`h6`. -/
def isHeadingName (name : String) : Bool :=
  name ∈ (["h1", "h2", "h3", "h4", "h5", "h6"] : List String)

/-- The block loop of `convert_to_doc_requests`, returning the request list
together with the final insertion index. Whitespace-only strings between
blocks are skipped; `<p>` and `h1`–`h6` and `<ul>`/`<ol>` dispatch to their
processors; anything else (including non-whitespace strings) falls back to
the paragraph processor. -/
def convertAux : List Node → Nat → List Request × Nat
  | [], insertionIndex => ([], insertionIndex)
  | block :: rest, insertionIndex =>
    match block with
    | .text s =>
      if pyStrip s = [] then convertAux rest insertionIndex
      else
        let pr := processParagraph (.text s) insertionIndex
        (pr.1 ++ (convertAux rest pr.2).1, (convertAux rest pr.2).2)
    | .elem name href cs =>
      let pr :=
        if name == "p" then processParagraph (.elem name href cs) insertionIndex
        else if isHeadingName name then
          processHeading (.elem name href cs) insertionIndex
        else if name == "ul" then
          processList (.elem name href cs) insertionIndex false
        else if name == "ol" then
          processList (.elem name href cs) insertionIndex true
        else processParagraph (.elem name href cs) insertionIndex
      (pr.1 ++ (convertAux rest pr.2).1, (convertAux rest pr.2).2)

/-- `convert_to_doc_requests(text, start_index)`, taking the parsed DOM
(`soup.contents`) in place of the raw text: the ordered request list. -/
def convert_to_doc_requests (soupContents : List Node) (startIndex : Nat) :
    List Request :=
  (convertAux soupContents startIndex).1

/-!
## `Document.generate_answer_sheet` (document.py)

The method talks to the remote Docs service through `fetch`, `batch_update`
and `append_text`; those remote interactions are modelled as an emitted
trace of steps, and the fetched "document has tabs" condition as a boolean
input. The validation order is the method's own: the length check is its
first statement, before any fetch or edit.
-/

/-- One remote edit step of `generate_answer_sheet`, in emission order.
`appendText` stands for an `append_text` call (insertion at the current end
index, optional bold); `titleStyle` for the `updateParagraphStyle` batch
setting `TITLE` + centered alignment over `[1, 1+len(title))`. -/
inductive SheetStep where
  | batchInsertText (index : Nat) (text : Str)
  | appendText (text : Str) (bold : Bool)
  | titleStyle (startIndex endIndex : Nat)
  deriving DecidableEq, Repr

/-- `generate_answer_sheet(title, problems, answers)`: raises on unequal
lengths before anything else, then on a document without tabs, and otherwise
emits the seed newline, the bold title, the title style, the two table
header lines, and one row per zipped problem/answer pair. -/
def generate_answer_sheet (title : Str) (problems answers : List Str)
    (hasTabs : Bool) : Except Str (List SheetStep) :=
  if problems.length ≠ answers.length then
    Except.error "Number of problems must match number of answers".data
  else if !hasTabs then
    Except.error "Document has no tabs".data
  else
    Except.ok
      (SheetStep.batchInsertText 1 ['\n']
        :: SheetStep.appendText (title ++ "\n\n".data) true
        :: SheetStep.titleStyle 1 (1 + title.length)
        :: SheetStep.appendText "Problem\tAnswer\n".data false
        :: SheetStep.appendText "-------\t-------\n".data false
        :: (problems.zip answers).map fun pa =>
            SheetStep.appendText (pa.1 ++ ['\t'] ++ pa.2 ++ ['\n']) false)

/-!
## Observations used by the claims
-/

/-- The `InsertText` operations of a request stream, in order, as
`(offset, text)` pairs. -/
def insertsOf (ops : List Request) : List (Nat × Str) :=
  ops.filterMap fun op =>
    match op with
    | .insertText i t => some (i, t)
    | _ => none

/-- Total length of the texts of a run of insertions. -/
def sumLens (inserts : List (Nat × Str)) : Nat :=
  (inserts.map (fun p => p.2.length)).sum

/-- The cursor discipline of the claims: each insertion lands exactly at the
running cursor, which then advances by the inserted text's length. -/
def insertsWellPlaced (cursor : Nat) : List (Nat × Str) → Bool
  | [] => true
  | (i, t) :: rest => i == cursor && insertsWellPlaced (cursor + t.length) rest

/-- Offsets of a run of insertions are non-decreasing. -/
def offsetsNonDecreasing : List (Nat × Str) → Bool
  | (i, _) :: (j, t) :: rest => i ≤ j && offsetsNonDecreasing ((j, t) :: rest)
  | _ => true

/-- No insertion in the stream carries empty text. -/
def allInsertsNonempty (ops : List Request) : Bool :=
  (insertsOf ops).all fun p => !p.2.isEmpty

/-- A `NavigableString` whose content strips to nothing (what the top-level
loop of `convert_to_doc_requests` skips). -/
def isWhitespaceOnlyText : Node → Bool
  | .text s => (pyStrip s).isEmpty
  | .elem _ _ _ => false

/-- A text-style request over a subrange of the insertion `[index,
index+len)` (links with empty display text legitimately produce an empty
range, hence `≤`). -/
def styleWithinInsert (index len : Nat) : Request → Bool
  | .updateTextStyle s e _ => index ≤ s && s ≤ e && e ≤ index + len
  | _ => false

/-- Number of bullet requests in a stream. -/
def countBullets (ops : List Request) : Nat :=
  ops.countP fun op =>
    match op with
    | .createParagraphBullets _ _ _ => true
    | _ => false

/-!
## Structural lemmas about the emitted streams
-/

theorem insertsOf_append (a b : List Request) :
    insertsOf (a ++ b) = insertsOf a ++ insertsOf b := by
  simp [insertsOf, List.filterMap_append]

theorem length_filterMap_eq_countP (f : α → Option β) (l : List α) :
    (l.filterMap f).length = l.countP (fun a => (f a).isSome) := by
  induction l with
  | nil => rfl
  | cons x xs ih =>
    cases hx : f x <;>
      simp [List.filterMap_cons, List.countP_cons, hx, ih]

/-- Every request `_generate_inline_format_requests` emits is an
`updateTextStyle`. -/
theorem generateInline_all_styles (p : Node) (off : Nat) :
    ∀ op ∈ generateInlineFormatRequests p off,
      ∃ s e st, op = Request.updateTextStyle s e st := by
  intro op hop
  unfold generateInlineFormatRequests at hop
  rw [List.mem_filterMap] at hop
  obtain ⟨el, _, hf⟩ := hop
  cases el with
  | text _ => simp at hf
  | elem name href cs =>
    dsimp only at hf
    by_cases h1 : name ∈ inlineTagNames
    · simp only [if_pos h1] at hf
      by_cases h2 : getTextL cs = []
      · rw [if_pos h2] at hf; simp at hf
      · rw [if_neg h2] at hf
        cases hfind : findSub (getText p) (getTextL cs) with
        | none => rw [hfind] at hf; simp at hf
        | some s => rw [hfind] at hf; simp at hf; exact ⟨_, _, _, hf.symm⟩
    · rw [if_neg h1] at hf; simp at hf

theorem insertsOf_eq_nil_of_styles (ops : List Request)
    (h : ∀ op ∈ ops, ∃ s e st, op = Request.updateTextStyle s e st) :
    insertsOf ops = [] := by
  induction ops with
  | nil => rfl
  | cons op rest ih =>
    obtain ⟨s, e, st, rfl⟩ := h op (by simp)
    simpa [insertsOf, List.filterMap_cons] using
      ih fun o ho => h o (by simp [ho])

theorem insertsOf_generateInline (p : Node) (off : Nat) :
    insertsOf (generateInlineFormatRequests p off) = [] :=
  insertsOf_eq_nil_of_styles _ (generateInline_all_styles p off)

theorem countBullets_eq_zero_of_styles (ops : List Request)
    (h : ∀ op ∈ ops, ∃ s e st, op = Request.updateTextStyle s e st) :
    countBullets ops = 0 := by
  induction ops with
  | nil => rfl
  | cons op rest ih =>
    obtain ⟨s, e, st, rfl⟩ := h op (by simp)
    simpa [countBullets, List.countP_cons] using
      ih fun o ho => h o (by simp [ho])

theorem countBullets_append (a b : List Request) :
    countBullets (a ++ b) = countBullets a + countBullets b := by
  simp [countBullets, List.countP_append]

/-- The cursor-discipline invariant glues over concatenation. -/
theorem insertsWellPlaced_append (c : Nat) (xs ys : List (Nat × Str))
    (hx : insertsWellPlaced c xs = true)
    (hy : insertsWellPlaced (c + sumLens xs) ys = true) :
    insertsWellPlaced c (xs ++ ys) = true := by
  induction xs generalizing c with
  | nil => simpa [sumLens] using hy
  | cons p ps ih =>
    obtain ⟨i, t⟩ := p
    rw [insertsWellPlaced] at hx
    rw [List.cons_append, insertsWellPlaced]
    simp only [Bool.and_eq_true, beq_iff_eq] at hx ⊢
    refine ⟨hx.1, ih _ hx.2 ?_⟩
    have : c + t.length + sumLens ps = c + sumLens ((i, t) :: ps) := by
      simp [sumLens]; omega
    rw [this]; exact hy

/-- Well-placed insertions have non-decreasing offsets. -/
theorem offsetsNonDecreasing_of_wellPlaced (c : Nat) (l : List (Nat × Str))
    (h : insertsWellPlaced c l = true) : offsetsNonDecreasing l = true := by
  induction l generalizing c with
  | nil => rfl
  | cons p ps ih =>
    obtain ⟨i, t⟩ := p
    cases ps with
    | nil => rfl
    | cons q qs =>
      obtain ⟨j, u⟩ := q
      rw [insertsWellPlaced] at h
      simp only [Bool.and_eq_true, beq_iff_eq] at h
      obtain ⟨rfl, h2⟩ := h
      have hj : j = i + t.length ∧
          insertsWellPlaced (i + t.length + u.length) qs = true := by
        rw [insertsWellPlaced] at h2
        simpa using h2
      rw [offsetsNonDecreasing]
      simp only [Bool.and_eq_true, decide_eq_true_eq]
      exact ⟨by omega, ih _ h2⟩

/-- The combined emission invariant: insertions land exactly at the running
cursor, the returned index is the entry index plus the total inserted
length, and no insertion is empty. -/
def GoodOps (idx : Nat) (ops : List Request) (idx' : Nat) : Prop :=
  insertsWellPlaced idx (insertsOf ops) = true
  ∧ idx' = idx + sumLens (insertsOf ops)
  ∧ allInsertsNonempty ops = true

theorem goodOps_styleOnly (idx : Nat) (ops : List Request)
    (h : insertsOf ops = []) : GoodOps idx ops idx := by
  refine ⟨by simp [h, insertsWellPlaced], by simp [h, sumLens], ?_⟩
  simp [allInsertsNonempty, h]

theorem goodOps_append (idx idx1 idx2 : Nat) (a b : List Request)
    (ha : GoodOps idx a idx1) (hb : GoodOps idx1 b idx2) :
    GoodOps idx (a ++ b) idx2 := by
  obtain ⟨ha1, ha2, ha3⟩ := ha
  obtain ⟨hb1, hb2, hb3⟩ := hb
  subst ha2
  refine ⟨?_, ?_, ?_⟩
  · rw [insertsOf_append]
    exact insertsWellPlaced_append _ _ _ ha1 hb1
  · rw [insertsOf_append, sumLens, List.map_append, List.sum_append]
    simp [sumLens] at hb2 ⊢
    omega
  · simp only [allInsertsNonempty, insertsOf_append, List.all_append,
      Bool.and_eq_true] at ha3 hb3 ⊢
    exact ⟨ha3, hb3⟩

theorem goodOps_single_insert (idx : Nat) (t : Str) (h : t ≠ []) :
    GoodOps idx [Request.insertText idx t] (idx + t.length) := by
  refine ⟨?_, ?_, ?_⟩
  · simp [insertsOf, insertsWellPlaced]
  · simp [insertsOf, sumLens]
  · simp [allInsertsNonempty, insertsOf, h]

theorem processParagraph_good (b : Node) (idx : Nat) :
    GoodOps idx (processParagraph b idx).1 (processParagraph b idx).2 := by
  unfold processParagraph
  dsimp only
  refine goodOps_append _ _ _ [_] _ (goodOps_single_insert _ _ ?_)
    (goodOps_styleOnly _ _ (insertsOf_generateInline _ _))
  by_cases h : pyStrip (getText b) = [] <;> simp [h]

theorem processHeading_good (b : Node) (idx : Nat) :
    GoodOps idx (processHeading b idx).1 (processHeading b idx).2 := by
  unfold processHeading
  dsimp only
  refine goodOps_append _ _ _ [_] (_ :: _) (goodOps_single_insert _ _ (by simp))
    (goodOps_append _ _ _ [_] _ (goodOps_styleOnly _ _ rfl)
      (goodOps_styleOnly _ _ (insertsOf_generateInline _ _)))

theorem liText_ne_nil (li : Node) : liText li ≠ [] := by
  unfold liText
  by_cases h : (childrenNamed li "p").isEmpty <;> simp [h]

theorem processListGo_good (items : List Node) (idx : Nat) (s0 : Option Nat) :
    GoodOps idx (processListGo items idx s0).1
      (processListGo items idx s0).2.1 := by
  induction items generalizing idx s0 with
  | nil => exact goodOps_styleOnly _ _ rfl
  | cons li rest ih =>
    rw [processListGo]
    dsimp only
    refine goodOps_append _ (idx + (liText li).length) _ [_] _
      (goodOps_single_insert _ _ (liText_ne_nil li)) ?_
    exact goodOps_append _ (idx + (liText li).length) _ _ _
      (goodOps_styleOnly _ _ (insertsOf_generateInline _ _))
      (ih (idx + (liText li).length) _)

theorem processList_good (b : Node) (idx : Nat) (ordered : Bool) :
    GoodOps idx (processList b idx ordered).1 (processList b idx ordered).2 := by
  unfold processList
  dsimp only
  have hgo := processListGo_good (childrenNamed b "li") idx none
  rcases hr : processListGo (childrenNamed b "li") idx none with ⟨ops, fi, s?, e?⟩
  rw [hr] at hgo
  dsimp only at hgo ⊢
  cases s? with
  | none => cases e? <;> exact hgo
  | some s =>
    cases e? with
    | none => exact hgo
    | some e =>
      exact goodOps_append _ fi _ ops [_] hgo (goodOps_styleOnly _ _ rfl)

theorem convertAux_good (doc : List Node) (idx : Nat) :
    GoodOps idx (convertAux doc idx).1 (convertAux doc idx).2 := by
  induction doc generalizing idx with
  | nil => exact goodOps_styleOnly _ _ rfl
  | cons block rest ih =>
    cases block with
    | text s =>
      by_cases h : pyStrip s = []
      · simpa only [convertAux, if_pos h] using ih idx
      · simp only [convertAux, if_neg h]
        exact goodOps_append _ (processParagraph (.text s) idx).2 _ _ _
          (processParagraph_good _ idx) (ih _)
    | elem name href cs =>
      simp only [convertAux]
      set pr :=
        if name == "p" then processParagraph (.elem name href cs) idx
        else if isHeadingName name then processHeading (.elem name href cs) idx
        else if name == "ul" then processList (.elem name href cs) idx false
        else if name == "ol" then processList (.elem name href cs) idx true
        else processParagraph (.elem name href cs) idx with hpr
      have hgood : GoodOps idx pr.1 pr.2 := by
        rw [hpr]
        by_cases hp : (name == "p") = true
        · rw [if_pos hp]; exact processParagraph_good _ idx
        · rw [if_neg hp]
          by_cases hh : isHeadingName name = true
          · rw [if_pos hh]; exact processHeading_good _ idx
          · rw [if_neg hh]
            by_cases hu : (name == "ul") = true
            · rw [if_pos hu]; exact processList_good _ idx false
            · rw [if_neg hu]
              by_cases ho : (name == "ol") = true
              · rw [if_pos ho]; exact processList_good _ idx true
              · rw [if_neg ho]; exact processParagraph_good _ idx
      exact goodOps_append _ pr.2 _ _ _ hgood (ih _)

/-- A successful first-occurrence search fits inside the haystack. -/
theorem findSub_le (hay needle : Str) (pos : Nat)
    (h : findSub hay needle = some pos) :
    pos + needle.length ≤ hay.length := by
  induction hay generalizing pos with
  | nil =>
    rw [findSub] at h
    by_cases hp : needle.isPrefixOf ([] : Str)
    · rw [if_pos hp] at h
      obtain rfl : (0 : Nat) = pos := by simpa using h
      have := (List.isPrefixOf_iff_prefix.mp hp).length_le
      simpa using this
    · rw [if_neg hp] at h
      simp at h
  | cons c t ih =>
    rw [findSub] at h
    by_cases hp : needle.isPrefixOf (c :: t)
    · rw [if_pos hp] at h
      obtain rfl : (0 : Nat) = pos := by simpa using h
      have := (List.isPrefixOf_iff_prefix.mp hp).length_le
      simpa using this
    · rw [if_neg hp] at h
      cases hft : findSub t needle with
      | none => rw [hft] at h; simp at h
      | some q =>
        rw [hft] at h
        simp at h
        subst h
        have := ih q hft
        simp only [List.length_cons]
        omega

theorem linkRequestOf_style (c : Str) (i : Nat) (m : Nat × Nat × Str × Str)
    (op : Request) (h : linkRequestOf c i m = some op) :
    ∃ s e st, op = Request.updateTextStyle s e st := by
  unfold linkRequestOf at h
  cases hf : findSub c m.2.2.1 with
  | none => rw [hf] at h; simp at h
  | some pos => rw [hf] at h; simp at h; exact ⟨_, _, _, h.symm⟩

theorem spanRequestOf_style (text c : Str) (i : Nat) (sp : Nat × Nat × TextStyle)
    (op : Request) (h : spanRequestOf text c i sp = some op) :
    ∃ s e st, op = Request.updateTextStyle s e st := by
  unfold spanRequestOf at h
  by_cases hl : (sp.2.2.link).isSome
  · rw [if_pos hl] at h; simp at h
  · rw [if_neg hl] at h
    dsimp only at h
    split at h
    · simp at h
    · simp at h; exact ⟨_, _, _, h.symm⟩

/-- The inserted cleaned text is never empty: a stripped-to-nothing input is
replaced by a single space. -/
theorem cleanedTextOf_ne_nil (t : Str) : cleanedTextOf t ≠ [] := by
  unfold cleanedTextOf
  by_cases h : pyStrip (removeMarkdownMarkers t) = []
  · rw [if_pos h]; simp
  · rw [if_neg h]
    intro hc
    exact h (by rw [hc]; rfl)

theorem processListGo_no_bullets (items : List Node) (idx : Nat)
    (s0 : Option Nat) :
    countBullets (processListGo items idx s0).1 = 0 := by
  induction items generalizing idx s0 with
  | nil => rfl
  | cons li rest ih =>
    rw [processListGo]
    dsimp only
    have h1 := countBullets_eq_zero_of_styles _
      (generateInline_all_styles li (s0.getD idx))
    have h2 := ih (idx + (liText li).length) (some (s0.getD idx))
    simp [countBullets, List.countP_cons, List.countP_append] at h1 h2 ⊢
    exact ⟨h1, h2⟩

/-- The loop threads `list_item_start_index` through unchanged once set. -/
theorem processListGo_start_some (items : List Node) (idx s : Nat) :
    (processListGo items idx (some s)).2.2.1 = some s := by
  induction items generalizing idx with
  | nil => rfl
  | cons li rest ih =>
    rw [processListGo]
    dsimp only
    exact ih (idx + (liText li).length)

/-- With no start yet, a non-empty loop records the entry index as the
first item's start. -/
theorem processListGo_start_none (items : List Node) (idx : Nat)
    (hne : items ≠ []) :
    (processListGo items idx none).2.2.1 = some idx := by
  cases items with
  | nil => exact absurd rfl hne
  | cons li rest =>
    rw [processListGo]
    dsimp only
    exact processListGo_start_some rest (idx + (liText li).length) idx

/-- A non-empty loop's recorded end is its final insertion index. -/
theorem processListGo_end (items : List Node) (idx : Nat) (s0 : Option Nat)
    (hne : items ≠ []) :
    (processListGo items idx s0).2.2.2 =
      some (processListGo items idx s0).2.1 := by
  induction items generalizing idx s0 with
  | nil => exact absurd rfl hne
  | cons li rest ih =>
    rw [processListGo]
    dsimp only
    cases hr : rest with
    | nil =>
      subst hr
      rw [processListGo]
      rfl
    | cons a as =>
      have h2 := ih (idx + (liText li).length) (some (s0.getD idx))
        (by rw [hr]; simp)
      rw [hr] at h2
      rw [h2]
      simp

/-!
## Concrete documents referenced by the claims

Modelled from the spec: these are the DOMs the third-party
python-markdown + BeautifulSoup pipeline yields for the claims' concrete
markdown inputs (the rendered HTML, whitespace strings between tags
included, read as a `soup.contents` list).
-/

/-- DOM of `"# Title\n\nHello **world**\n"`: rendered HTML
`<h1>Title</h1>\n<p>Hello <strong>world</strong></p>`. -/
def c2Doc : List Node :=
  [ .elem "h1" none [.text "Title".data]
  , .text "\n".data
  , .elem "p" none
      [.text "Hello ".data, .elem "strong" none [.text "world".data]] ]

/-- DOM of `"**a *b* c**"`: rendered HTML
`<p><strong>a <em>b</em> c</strong></p>`. -/
def c4Doc : List Node :=
  [ .elem "p" none [.elem "strong" none
      [.text "a ".data, .elem "em" none [.text "b".data], .text " c".data]] ]

/-- DOM of `"- a\n- **b**"`: rendered HTML
`<ul>\n<li>a</li>\n<li><strong>b</strong></li>\n</ul>`. -/
def c3Doc : List Node :=
  [ .elem "ul" none
      [ .text "\n".data
      , .elem "li" none [.text "a".data]
      , .text "\n".data
      , .elem "li" none [.elem "strong" none [.text "b".data]]
      , .text "\n".data ] ]

/-- **C2** (end-to-end example): compiling `"# Title\n\nHello **world**\n"`
at start index 10 produces exactly, in order, `InsertText 10 "Title\n"`, the
HEADING_1 paragraph style over `[10,16)`, `InsertText 16 "Hello world\n"`,
and bold over `[22,27)` (covering "world"); the final cursor is 28. -/
theorem C2_end_to_end_example :
    convert_to_doc_requests c2Doc 10 =
      [ Request.insertText 10 "Title\n".data
      , Request.updateParagraphStyle 10 16 "HEADING_1".data
      , Request.insertText 16 "Hello world\n".data
      , Request.updateTextStyle 22 27 boldStyle ]
    ∧ (convertAux c2Doc 10).2 = 28 :=
  ⟨rfl, rfl⟩

/-- **C3** (failing input `"- a\n- **b**"` at start index 0): the second
item's text `"b\n"` is inserted over `[2,4)`, so its bold span resolved at
offset 0 of the item's plain text should cover `[2,3)`; instead the emitted
style op covers `[0,1)`, because `_process_list` passes
`list_item_start_index` — the FIRST item's start — as the inline offset for
every item. The op the claim requires is absent from the stream. -/
theorem C3_second_item_styles_use_first_item_start :
    convert_to_doc_requests c3Doc 0 =
      [ Request.insertText 0 "a\n".data
      , Request.insertText 2 "b\n".data
      , Request.updateTextStyle 0 1 boldStyle
      , Request.createParagraphBullets 0 4 (bulletPresetOf false) ]
    ∧ Request.updateTextStyle 2 3 boldStyle ∉ convert_to_doc_requests c3Doc 0 :=
  ⟨rfl, by decide⟩

/-- **C4, counterexample**: on `"**a *b* c**"` the AST compiler emits an
italic style op (over the "b"), refuting "emits no italic style operation":
the HTML walker styles a nested `<em>` even inside a `<strong>`. -/
theorem C4_counterexample_italic_is_emitted :
    Request.updateTextStyle 2 3 italicStyle ∈ convert_to_doc_requests c4Doc 0 := by
  decide

/-- **C4, amended**: on `"**a *b* c**"` compilation emits exactly one bold
style op, covering exactly the delimiter-stripped text "a b c" (range
`[0,5)` of the inserted `"a b c\n"`), and additionally exactly one italic
style op covering "b" (range `[2,3)`); the suppression of bold-nested
italics applies only to the legacy regex span identification, not to the
AST path. -/
theorem C4_amended_bold_plus_nested_italic :
    convert_to_doc_requests c4Doc 0 =
      [ Request.insertText 0 "a b c\n".data
      , Request.updateTextStyle 0 5 boldStyle
      , Request.updateTextStyle 2 3 italicStyle ] :=
  rfl

/-- **C7**: with unequal problem/answer list lengths,
`generate_answer_sheet` fails with the validation error before emitting any
step — the length check is the method's first statement. -/
theorem C7_length_mismatch_is_fatal (title : Str) (problems answers : List Str)
    (hasTabs : Bool) (h : problems.length ≠ answers.length) :
    generate_answer_sheet title problems answers hasTabs =
      Except.error "Number of problems must match number of answers".data := by
  unfold generate_answer_sheet
  rw [if_pos h]

/-- Witness for C7: three problems against two answers. -/
theorem C7_witness :
    (["p1", "p2", "p3"].map String.data).length ≠
        (["a1", "a2"].map String.data).length
    ∧ generate_answer_sheet "T".data (["p1", "p2", "p3"].map String.data)
        (["a1", "a2"].map String.data) true =
      Except.error "Number of problems must match number of answers".data :=
  ⟨by decide,
    C7_length_mismatch_is_fatal _ _ _ _ (by decide)⟩

/-- **C8, counterexample**: on the empty input the legacy path inserts a
single SPACE, not a blank line — the claim's "single blank-line placeholder
... on any compilation path" fails on `create_text_insertion_requests`
(which uses `" "` to avoid empty text). -/
theorem C8_counterexample_legacy_placeholder_is_space :
    (create_text_insertion_requests [] 5).1 = [Request.insertText 5 [' ']]
    ∧ Request.insertText 5 ['\n'] ∉ (create_text_insertion_requests [] 5).1 := by
  decide

/-- **C9, counterexample**: in `"# Hello"` the two header-marker characters
`"# "` are syntax characters (stripping the 3-character prefix `"# H"`
leaves just `"H"`), yet `_count_preceding_syntax_chars` at position 3
returns 0 — it never counts header hashes (nor list markers). -/
theorem C9_counterexample_header_hashes_not_counted :
    countPrecedingSyntaxChars "# Hello".data 3 = 0
    ∧ "# H".data.length - (removeMarkdownMarkers "# H".data).length = 2
    ∧ countPrecedingSyntaxChars "# Hello".data 3 ≠
        "# H".data.length - (removeMarkdownMarkers "# H".data).length := by
  decide

/-- Representative raw text for the amended C9: one bold construct
(`[1,7)`), one italic construct not nested in bold (`[8,11)`), and one code
construct (`[12,15)`). -/
def c9Text : Str := "a**bc**d*e*f`g`h".data

/-- The positions of the syntax characters the function counts in `c9Text`:
the bold delimiters 1,2,5,6, the italic delimiters 8,10, and the code
delimiters 12,14. -/
def c9SyntaxPositions : List Nat := [1, 2, 5, 6, 8, 10, 12, 14]

/-- **C9, amended**: restricted to text whose markers are the inline
constructs the function examines (no header hashes, list markers, or
bold-nested italics) and to positions not falling strictly inside a
two-character delimiter, `_count_preceding_syntax_chars` returns the number
of syntax characters strictly before the position — in particular, for a
position strictly between a construct's opening and closing delimiters only
the opening delimiter is counted. Verified at every position of `c9Text`
(positions 2 and 6 split the `**` delimiters themselves; there the function
counts the whole opening pair and the claimed count fails). -/
theorem C9_amended_inline_syntax_count (pos : Nat) (hlt : pos < 17)
    (h2 : pos ≠ 2) (h6 : pos ≠ 6) :
    countPrecedingSyntaxChars c9Text pos =
      c9SyntaxPositions.countP (fun q => decide (q < pos)) := by
  revert h2 h6
  revert pos
  decide

/-- Witness for the amended C9 at position 4 (strictly inside the bold
construct): only the opening `**` (positions 1 and 2) is counted. -/
theorem C9_witness :
    (4 : Nat) < 17 ∧ (4 : Nat) ≠ 2 ∧ (4 : Nat) ≠ 6
    ∧ countPrecedingSyntaxChars c9Text 4 =
        c9SyntaxPositions.countP (fun q => decide (q < 4)) :=
  ⟨by decide, by decide, by decide,
    C9_amended_inline_syntax_count 4 (by decide) (by decide) (by decide)⟩

/-- **C1**: for every parsed document and start index, the `InsertText`
offsets of the stream emitted by `convert_to_doc_requests` are
non-decreasing, each equals the start index plus the sum of the lengths of
all previously inserted texts (`insertsWellPlaced`), and the final cursor
returned by the block loop is the start index plus the total inserted
length. -/
theorem C1_insert_offsets_follow_cursor (doc : List Node) (startIndex : Nat) :
    offsetsNonDecreasing
        (insertsOf (convert_to_doc_requests doc startIndex)) = true
    ∧ insertsWellPlaced startIndex
        (insertsOf (convert_to_doc_requests doc startIndex)) = true
    ∧ (convertAux doc startIndex).2 =
        startIndex + sumLens (insertsOf (convert_to_doc_requests doc startIndex)) := by
  have h := convertAux_good doc startIndex
  exact ⟨offsetsNonDecreasing_of_wellPlaced _ _ h.1, h.1, h.2.1⟩

/-- **C5**: a list block with at least one `<li>` yields exactly one bullet
request, placed after every item, spanning from the first item's start (the
entry index) to the last item's end (the final insertion index), with the
disc/circle/square preset for unordered and decimal/alpha/roman for ordered
lists. -/
theorem C5_exactly_one_bullet_spanning_items (block : Node) (idx : Nat)
    (ordered : Bool) (h : (childrenNamed block "li").isEmpty = false) :
    countBullets (processList block idx ordered).1 = 1
    ∧ (processList block idx ordered).1.getLast? =
        some (Request.createParagraphBullets idx
          (processList block idx ordered).2 (bulletPresetOf ordered)) := by
  have hne : childrenNamed block "li" ≠ [] := by
    intro hc
    rw [hc] at h
    simp at h
  have hs := processListGo_start_none (childrenNamed block "li") idx hne
  have he := processListGo_end (childrenNamed block "li") idx none hne
  have hb := processListGo_no_bullets (childrenNamed block "li") idx none
  unfold processList
  dsimp only
  rw [hs, he]
  dsimp only
  constructor
  · rw [countBullets_append, hb]
    rfl
  · rw [List.getLast?_concat]

/-- Witness for C5: a one-item ordered list compiled at index 5. -/
theorem C5_witness :
    ((childrenNamed (Node.elem "ol" none
        [Node.elem "li" none [Node.text "x".data]]) "li").isEmpty = false)
    ∧ countBullets (processList (Node.elem "ol" none
        [Node.elem "li" none [Node.text "x".data]]) 5 true).1 = 1
    ∧ (processList (Node.elem "ol" none
        [Node.elem "li" none [Node.text "x".data]]) 5 true).1.getLast? =
        some (Request.createParagraphBullets 5
          (processList (Node.elem "ol" none
            [Node.elem "li" none [Node.text "x".data]]) 5 true).2
          (bulletPresetOf true)) :=
  ⟨by decide,
    (C5_exactly_one_bullet_spanning_items _ 5 true (by decide)).1,
    (C5_exactly_one_bullet_spanning_items _ 5 true (by decide)).2⟩

/-- **C6**: `create_text_insertion_requests` always emits the plain-text
insertion first; every further request is a text-style update lying inside
the inserted text; and the stream has exactly one request per located link
plus one per surviving span — a span whose text cannot be located (or whose
translated range is invalid) contributes nothing, and compilation is total
(it returns a best-effort list, never an error). -/
theorem C6_unlocatable_spans_are_dropped (text : Str) (index : Nat) :
    (create_text_insertion_requests text index).1.head? =
        some (Request.insertText index (cleanedTextOf text))
    ∧ ((create_text_insertion_requests text index).1.tail.all
        (styleWithinInsert index (cleanedTextOf text).length)) = true
    ∧ (create_text_insertion_requests text index).1.length =
        1 + ((linkMatches text).countP
              (fun m => (linkRequestOf (cleanedTextOf text) index m).isSome))
          + ((identifyAllSpans text).countP
              (fun sp =>
                (spanRequestOf text (cleanedTextOf text) index sp).isSome)) := by
  refine ⟨rfl, ?_, ?_⟩
  · unfold create_text_insertion_requests
    dsimp only
    rw [List.tail_cons, List.all_append, Bool.and_eq_true]
    refine ⟨?_, ?_⟩
    · rw [List.all_eq_true]
      intro op hop
      rw [List.mem_filterMap] at hop
      obtain ⟨m, _, hm⟩ := hop
      unfold linkRequestOf at hm
      cases hfind : findSub (cleanedTextOf text) m.2.2.1 with
      | none => rw [hfind] at hm; simp at hm
      | some pos =>
        rw [hfind] at hm
        simp only [Option.some.injEq] at hm
        subst hm
        have hb := findSub_le _ _ _ hfind
        simp only [styleWithinInsert, Bool.and_eq_true, decide_eq_true_eq]
        omega
    · rw [List.all_eq_true]
      intro op hop
      rw [List.mem_filterMap] at hop
      obtain ⟨sp, _, hsp⟩ := hop
      unfold spanRequestOf at hsp
      by_cases hl : (sp.2.2.link).isSome
      · rw [if_pos hl] at hsp; simp at hsp
      · rw [if_neg hl] at hsp
        dsimp only at hsp
        by_cases hg : ((sp.2.1 : Int) - countPrecedingSyntaxChars text sp.2.1 ≤
              (sp.1 : Int) - countPrecedingSyntaxChars text sp.1)
            ∨ ((sp.1 : Int) - countPrecedingSyntaxChars text sp.1 < 0)
            ∨ (((cleanedTextOf text).length : Int) <
                (sp.2.1 : Int) - countPrecedingSyntaxChars text sp.2.1)
        · rw [if_pos hg] at hsp; simp at hsp
        · rw [if_neg hg] at hsp
          simp only [Option.some.injEq] at hsp
          subst hsp
          push_neg at hg
          obtain ⟨h1, h2, h3⟩ := hg
          simp only [styleWithinInsert, Bool.and_eq_true, decide_eq_true_eq]
          omega
  · unfold create_text_insertion_requests
    dsimp only
    rw [List.length_cons, List.length_append,
      length_filterMap_eq_countP, length_filterMap_eq_countP]
    omega

/-- **C8, amended**: a block whose text strips to nothing yields a single
NEWLINE placeholder on the AST paragraph path and a single SPACE placeholder
on the legacy path; on both paths no `InsertText` ever carries empty text. -/
theorem C8_amended_no_empty_insert (doc : List Node) (startIndex : Nat)
    (t : Str) (i : Nat) (b : Node) (j : Nat)
    (hb : pyStrip (getText b) = [])
    (ht : pyStrip (removeMarkdownMarkers t) = []) :
    allInsertsNonempty (convert_to_doc_requests doc startIndex) = true
    ∧ allInsertsNonempty (create_text_insertion_requests t i).1 = true
    ∧ (processParagraph b j).1.head? = some (Request.insertText j ['\n'])
    ∧ (create_text_insertion_requests t i).1.head? =
        some (Request.insertText i [' ']) := by
  refine ⟨(convertAux_good doc startIndex).2.2, ?_, ?_, ?_⟩
  · unfold create_text_insertion_requests
    dsimp only
    have hstyles : insertsOf
        ((linkMatches t).filterMap (linkRequestOf (cleanedTextOf t) i)
          ++ (identifyAllSpans t).filterMap
              (spanRequestOf t (cleanedTextOf t) i)) = [] := by
      apply insertsOf_eq_nil_of_styles
      intro op hop
      rw [List.mem_append] at hop
      rcases hop with hop | hop <;> rw [List.mem_filterMap] at hop
      · obtain ⟨m, _, hm⟩ := hop
        exact linkRequestOf_style _ _ _ _ hm
      · obtain ⟨sp, _, hsp⟩ := hop
        exact spanRequestOf_style _ _ _ _ _ hsp
    simp only [allInsertsNonempty, insertsOf, List.filterMap_cons] at hstyles ⊢
    simp [hstyles, cleanedTextOf_ne_nil t]
  · unfold processParagraph
    dsimp only
    rw [if_pos hb]
    rfl
  · unfold create_text_insertion_requests
    dsimp only
    unfold cleanedTextOf
    rw [if_pos ht]
    rfl

/-- Witness for the amended C8: an empty `<p>` at index 3 and the empty
legacy input at index 5. -/
theorem C8_witness :
    pyStrip (getText (Node.elem "p" none [])) = []
    ∧ pyStrip (removeMarkdownMarkers []) = []
    ∧ allInsertsNonempty
        (convert_to_doc_requests [Node.elem "p" none []] 0) = true
    ∧ allInsertsNonempty (create_text_insertion_requests [] 5).1 = true
    ∧ (processParagraph (Node.elem "p" none []) 3).1.head? =
        some (Request.insertText 3 ['\n'])
    ∧ (create_text_insertion_requests [] 5).1.head? =
        some (Request.insertText 5 [' ']) := by
  have h := C8_amended_no_empty_insert [Node.elem "p" none []] 0 [] 5
    (Node.elem "p" none []) 3 (by decide) (by decide)
  exact ⟨by decide, by decide, h.1, h.2.1, h.2.2.1, h.2.2.2⟩

/-- **C10**: a parse with no block-level elements (only whitespace strings,
as for empty or whitespace-only markdown) compiles to the empty request
list, and the insertion index is returned unchanged. -/
theorem C10_no_blocks_no_requests (doc : List Node) (startIndex : Nat)
    (h : doc.all isWhitespaceOnlyText = true) :
    convert_to_doc_requests doc startIndex = []
    ∧ (convertAux doc startIndex).2 = startIndex := by
  induction doc with
  | nil => exact ⟨rfl, rfl⟩
  | cons n rest ih =>
    simp only [List.all_cons, Bool.and_eq_true] at h
    obtain ⟨h1, h2⟩ := h
    cases n with
    | text s =>
      have hs : pyStrip s = [] := by
        simpa [isWhitespaceOnlyText, List.isEmpty_iff] using h1
      have hr := ih h2
      constructor
      · simpa only [convert_to_doc_requests, convertAux, if_pos hs] using hr.1
      · simpa only [convertAux, if_pos hs] using hr.2
    | elem name href cs => simp [isWhitespaceOnlyText] at h1

/-- Witness for C10: a lone whitespace string at start index 7. -/
theorem C10_witness :
    ([Node.text "  \n".data].all isWhitespaceOnlyText = true)
    ∧ convert_to_doc_requests [Node.text "  \n".data] 7 = []
    ∧ (convertAux [Node.text "  \n".data] 7).2 = 7 :=
  ⟨by decide,
    (C10_no_blocks_no_requests [Node.text "  \n".data] 7 (by decide)).1,
    (C10_no_blocks_no_requests [Node.text "  \n".data] 7 (by decide)).2⟩

end PyGoogleDocs
